import Mathlib

/-!
Shallow embedding of the ts-ecs engine (`src/src/index.ts`).

The source keeps its state in JavaScript `Map`s and `Set`s, which iterate
in insertion order.  We embed a `Map` as an association list (`mapGet`,
`mapSet`, `mapDelete`) and a `Set` as a duplicate-free list (`setAdd`,
`setDelete`): `Map.set` on an existing key updates the value in place and
keeps the entry's position, a new key is appended at the end; `Set.add` is
a no-op on a present element and otherwise appends.

Component kinds in the source are constructor-function identities and
component instances are class instances; we model both as `Nat` tokens.
Class instances are JavaScript objects and therefore always truthy, so the
source's `if (comp)` test in `getComponent` is presence of the map entry.
Entity ids are strings produced by an external uuid allocator; the
allocator is modelled by passing the fresh id to `createEntity` explicitly.
-/

abbrev EntityId := String

/-- A component kind: the identity of a constructor function. -/
abbrev Kind := Nat

/-- A component instance: the identity of a constructed object. -/
abbrev Comp := Nat

/-- JavaScript `Map.get`: the value stored under `k`, if any. -/
def mapGet {α β : Type} [DecidableEq α] : List (α × β) → α → Option β
  | [], _ => none
  | (k', v') :: rest, k => if k' = k then some v' else mapGet rest k

/-- JavaScript `Map.set`: update in place keeping the entry position, or
append a new entry at the end. -/
def mapSet {α β : Type} [DecidableEq α] : List (α × β) → α → β → List (α × β)
  | [], k, v => [(k, v)]
  | (k', v') :: rest, k, v =>
    if k' = k then (k, v) :: rest else (k', v') :: mapSet rest k v

/-- JavaScript `Map.delete`: drop the entry under `k`. -/
def mapDelete {α β : Type} [DecidableEq α] : List (α × β) → α → List (α × β)
  | [], _ => []
  | (k', v') :: rest, k =>
    if k' = k then mapDelete rest k else (k', v') :: mapDelete rest k

/-- JavaScript `Set.add`: no-op when present, otherwise append. -/
def setAdd {α : Type} [DecidableEq α] (s : List α) (x : α) : List α :=
  if s.contains x then s else s ++ [x]

/-- JavaScript `Set.delete`: drop the element. -/
def setDelete {α : Type} [DecidableEq α] : List α → α → List α
  | [], _ => []
  | y :: rest, x => if y = x then setDelete rest x else y :: setDelete rest x

/-- The three fields of the source's `EntityManager`:
`entities` (the live set), `entityComponents` (entity → kind → instance)
and `componentEntities` (kind → set of entity ids). -/
structure EMState where
  entities : List EntityId
  entityComponents : List (EntityId × List (Kind × Comp))
  componentEntities : List (Kind × List EntityId)
  deriving Repr, DecidableEq

/-- The manager with no entities and no components. -/
def emptyEM : EMState := ⟨[], [], []⟩

namespace EntityManager

/-- `getComponentsForEntity`: returns the component map for `entityId`,
inserting a fresh empty map into `entityComponents` when none exists.
The source returns a live reference; we return the map together with the
updated store. -/
def getComponentsForEntity (st : EMState) (entityId : EntityId) :
    List (Kind × Comp) × EMState :=
  match mapGet st.entityComponents entityId with
  | some m => (m, st)
  | none => ([], { st with entityComponents := st.entityComponents ++ [(entityId, [])] })

/-- `getEntitiesForComponent`: returns the entity set for `ctor`,
inserting a fresh empty set into `componentEntities` when none exists. -/
def getEntitiesForComponent (st : EMState) (ctor : Kind) :
    List EntityId × EMState :=
  match mapGet st.componentEntities ctor with
  | some s => (s, st)
  | none => ([], { st with componentEntities := st.componentEntities ++ [(ctor, [])] })

/-- `createEntity`: registers a freshly allocated id as live.  The uuid
allocator is external; the fresh id is passed explicitly. -/
def createEntity (st : EMState) (id : EntityId) : EMState :=
  { st with entities := setAdd st.entities id }

/-- `getEntity`: a handle (just the id here) iff the id is live. -/
def getEntity (st : EMState) (id : EntityId) : Option EntityId :=
  if st.entities.contains id then some id else none

/-- `addComponent`: `getComponentsForEntity(entityId).set(ctor, data)`
then `getEntitiesForComponent(ctor).add(entityId)`; the source mutates the
returned references, which we render by writing the updated map and set
back into the store. -/
def addComponent (st : EMState) (entityId : EntityId) (ctor : Kind) (data : Comp) :
    EMState :=
  let g := getComponentsForEntity st entityId
  let st2 := { g.2 with entityComponents := mapSet g.2.entityComponents entityId (mapSet g.1 ctor data) }
  let g2 := getEntitiesForComponent st2 ctor
  { g2.2 with componentEntities := mapSet g2.2.componentEntities ctor (setAdd g2.1 entityId) }

/-- `getComponent`: looks the kind up in `getComponentsForEntity(entityId)`
(which may insert an empty map); component instances are objects, hence
truthy, so `if (comp)` is presence of the entry. -/
def getComponent (st : EMState) (entityId : EntityId) (ctor : Kind) :
    Option Comp × EMState :=
  let g := getComponentsForEntity st entityId
  (mapGet g.1 ctor, g.2)

/-- `removeComponent`: `getComponentsForEntity(entityId).delete(ctor)` then
`getEntitiesForComponent(ctor).delete(entityId)`. -/
def removeComponent (st : EMState) (entityId : EntityId) (ctor : Kind) : EMState :=
  let g := getComponentsForEntity st entityId
  let st2 := { g.2 with entityComponents := mapSet g.2.entityComponents entityId (mapDelete g.1 ctor) }
  let g2 := getEntitiesForComponent st2 ctor
  { g2.2 with componentEntities := mapSet g2.2.componentEntities ctor (setDelete g2.1 entityId) }

/-- `removeComponents`: `removeComponent` for each kind in order. -/
def removeComponents (st : EMState) (entityId : EntityId) (ctors : List Kind) : EMState :=
  ctors.foldl (fun s c => removeComponent s entityId c) st

/-- `deleteEntity`: `false` when the id is not live; otherwise removes every
component the entity holds (the source iterates the keys of the entity's
component map, deleting the visited key each step, which visits exactly the
keys present at entry), deletes the `entityComponents` entry and the live
id, and returns `true`. -/
def deleteEntity (st : EMState) (entityId : EntityId) : Bool × EMState :=
  if st.entities.contains entityId then
    let g := getComponentsForEntity st entityId
    let st2 := removeComponents g.2 entityId (g.1.map (·.1))
    (true, { st2 with entityComponents := mapDelete st2.entityComponents entityId,
                      entities := setDelete st2.entities entityId })
  else
    (false, st)

/-- One step of the `ctors.map(ctor => this.getEntitiesForComponent(ctor))`
loop: collect the kind's set and thread the store (the collected sets are
live references in the source; later steps only insert fresh empty sets,
never touch a collected one, so collecting values is equivalent). -/
def queryStep (acc : List (List EntityId) × EMState) (ctor : Kind) :
    List (List EntityId) × EMState :=
  (acc.1 ++ [(getEntitiesForComponent acc.2 ctor).1],
   (getEntitiesForComponent acc.2 ctor).2)

/-- `getEntitiesWithComponents`: throws when no kinds are given; otherwise
fetches each kind's entity set (creating empty sets for missing kinds),
takes the first as the seed, and keeps each seed member present in every
set, in seed iteration order. -/
def getEntitiesWithComponents (st : EMState) (ctors : List Kind) :
    Except String (List EntityId) × EMState :=
  if ctors.length = 0 then
    (Except.error "No Component constructors passed to World#withComponent", st)
  else
    let folded := ctors.foldl queryStep ([], st)
    let firstSet := folded.1.headD []
    (Except.ok (firstSet.filter (fun e => folded.1.all (fun s => s.contains e))), folded.2)

end EntityManager

/-!
Observation functions on the store, used to state the spec's properties.
-/

/-- The entity's component map as observed through `byEntity`: its entry in
`entityComponents`, or the empty map when there is none. -/
def ecD (st : EMState) (e : EntityId) : List (Kind × Comp) :=
  (mapGet st.entityComponents e).getD []

/-- The kind's entity set as observed through `byKind`: its entry in
`componentEntities`, or the empty set when there is none. -/
def byKindD (st : EMState) (k : Kind) : List EntityId :=
  (mapGet st.componentEntities k).getD []

/-- `k ∈ byEntity[e]`: the kind is a key of the entity's component map. -/
def hasKey (st : EMState) (e : EntityId) (k : Kind) : Bool :=
  (mapGet (ecD st e) k).isSome

/-- `e ∈ byKind[k]`: the entity is a member of the kind's entity set. -/
def inByKind (st : EMState) (e : EntityId) (k : Kind) : Bool :=
  (byKindD st k).contains e

/-- The spec's bidirectional index consistency invariant. -/
def Consistent (st : EMState) : Prop :=
  ∀ e k, hasKey st e k = inByKind st e k

/-!
The `World` tick loop.  The source's `TickScheduler` is a consumer-supplied
interface; we instantiate it with a manually-steppable scheduler that keeps
the list of pending handles, as the spec's test-driven scheduler note
describes.  `scheduleTick` issues a fresh non-zero handle (the default
scheduler's `requestAnimationFrame` also returns non-zero handles) and
`cancelTick` drops a pending handle.  Systems are opaque to the engine: we
identify them by `Nat` tokens and record each `system.tick(world, delta)`
invocation as an emitted `(system, delta)` event, in call order.
`now()` is wall-clock time, passed to `start` and `tick` explicitly.
-/

structure SchedulerState where
  nextHandle : Nat
  pending : List Nat
  deriving Repr, DecidableEq

/-- A scheduler with no pending ticks; handles start at 1. -/
def freshScheduler : SchedulerState := ⟨1, []⟩

/-- `scheduleTick`: schedule one callback, returning its handle. -/
def scheduleTick (s : SchedulerState) : Nat × SchedulerState :=
  (s.nextHandle, ⟨s.nextHandle + 1, s.pending ++ [s.nextHandle]⟩)

/-- `cancelTick`: drop the pending callback with this handle, if any. -/
def cancelTick (s : SchedulerState) (h : Nat) : SchedulerState :=
  { s with pending := s.pending.filter (fun p => p ≠ h) }

/-- The fields of the source's `World`: the owned entity manager, the
ordered system registry (a JavaScript `Set`, which iterates in insertion
order), the running flag, whether a scheduler has been stored, the
last-tick timestamp and the pending tick handle. -/
structure WorldS where
  em : EMState
  systems : List Nat
  running : Bool
  hasScheduler : Bool
  lastTick : Int
  nextTickHandle : Option Nat
  deriving Repr, DecidableEq

/-- A freshly constructed, idle world. -/
def newWorld : WorldS :=
  ⟨emptyEM, [], false, false, 0, none⟩

namespace World

/-- `addSystem`: `configure` runs against the world (opaque here), then the
system is added to the `Set` registry — a no-op when already present. -/
def addSystem (w : WorldS) (system : Nat) : WorldS :=
  { w with systems := setAdd w.systems system }

/-- `removeSystem`: delete from the registry, then `unconfigure` (opaque). -/
def removeSystem (w : WorldS) (system : Nat) : WorldS :=
  { w with systems := setDelete w.systems system }

/-- `start`: early return when already running; otherwise set the running
flag, record `now()` as `lastTick`, store the scheduler and schedule the
first tick. -/
def start (w : WorldS) (s : SchedulerState) (timeNow : Int) :
    WorldS × SchedulerState :=
  if w.running then (w, s)
  else
    let (h, s') := scheduleTick s
    ({ w with running := true, lastTick := timeNow,
              hasScheduler := true, nextTickHandle := some h }, s')

/-- The source's `if (this.nextTickHandle)` is a truthiness test: handle
`0` would be falsy.  (Our scheduler and `requestAnimationFrame` both issue
non-zero handles.) -/
def truthyHandle : Option Nat → Bool
  | none => false
  | some h => h ≠ 0

/-- `stop`: nothing when idle; otherwise clear the running flag and, when a
tick handle is pending (truthy), cancel it and null the handle. -/
def stop (w : WorldS) (s : SchedulerState) : WorldS × SchedulerState :=
  if w.running then
    let w' := { w with running := false }
    if truthyHandle w'.nextTickHandle then
      ({ w' with nextTickHandle := none },
       cancelTick s (w'.nextTickHandle.getD 0))
    else (w', s)
  else (w, s)

/-- The private `tick` handler: nothing unless running; otherwise compute
`delta = now - lastTick`, update `lastTick`, call `tick(world, delta)` on
every registered system in registration order (emitted as events), then
schedule the next tick. -/
def tick (w : WorldS) (s : SchedulerState) (timeNow : Int) :
    WorldS × SchedulerState × List (Nat × Int) :=
  if w.running then
    let delta := timeNow - w.lastTick
    let calls := w.systems.map (fun system => (system, delta))
    let (h, s') := scheduleTick s
    ({ w with lastTick := timeNow, nextTickHandle := some h }, s', calls)
  else (w, s, [])

end World

/-- A concrete store matching the spec's query test vector: `e1 = {A, B}`,
`e2 = {A}`, `e3 = {B}` with kind `A = 0` and kind `B = 1`. -/
def sampleStore : EMState :=
  EntityManager.addComponent (EntityManager.addComponent (EntityManager.addComponent
    (EntityManager.addComponent
      (EntityManager.createEntity (EntityManager.createEntity
        (EntityManager.createEntity emptyEM "e1") "e2") "e3")
      "e1" 0 1) "e1" 1 2) "e2" 0 3) "e3" 1 4

/-- A concrete running world with three systems registered in order. -/
def sampleRunningWorld : WorldS :=
  { newWorld with systems := [1, 2, 3], running := true, lastTick := 10 }

/-!
Lemmas about the JavaScript collection primitives.
-/

theorem mapGet_mapSet {α β : Type} [DecidableEq α] (m : List (α × β)) (k q : α) (v : β) :
    mapGet (mapSet m k v) q = if k = q then some v else mapGet m q := by
  induction m with
  | nil => by_cases h : k = q <;> simp [mapGet, mapSet, h]
  | cons p rest ih =>
    obtain ⟨a, b⟩ := p
    by_cases hak : a = k
    · subst hak
      by_cases hq : a = q <;> simp [mapGet, mapSet, hq]
    · by_cases hq : a = q
      · subst hq
        have hkq : ¬ (k = a) := fun h => hak h.symm
        simp [mapGet, mapSet, hak, hkq]
      · simp [mapGet, mapSet, hak, hq, ih]

theorem mapGet_mapDelete {α β : Type} [DecidableEq α] (m : List (α × β)) (k q : α) :
    mapGet (mapDelete m k) q = if k = q then none else mapGet m q := by
  induction m with
  | nil => by_cases h : k = q <;> simp [mapGet, mapDelete, h]
  | cons p rest ih =>
    obtain ⟨a, b⟩ := p
    by_cases hak : a = k
    · subst hak
      have hq : ¬ (a = q) ∨ a = q := em _ |>.symm
      by_cases hq : a = q
      · subst hq; simp [mapDelete, ih]
      · simp [mapDelete, mapGet, hq, ih]
    · by_cases hq : a = q
      · subst hq
        have hkq : ¬ (k = a) := fun h => hak h.symm
        simp [mapDelete, mapGet, hak, hkq]
      · simp [mapDelete, mapGet, hak, hq, ih]

theorem mapGet_append {α β : Type} [DecidableEq α] (m m' : List (α × β)) (q : α) :
    mapGet (m ++ m') q = (mapGet m q).orElse (fun _ => mapGet m' q) := by
  induction m with
  | nil => simp [mapGet]
  | cons p rest ih =>
    obtain ⟨a, b⟩ := p
    by_cases h : a = q <;> simp [mapGet, h, ih]

theorem mapGet_eq_none_iff {α β : Type} [DecidableEq α] (m : List (α × β)) (k : α) :
    mapGet m k = none ↔ k ∉ m.map Prod.fst := by
  induction m with
  | nil => simp [mapGet]
  | cons p rest ih =>
    obtain ⟨a, b⟩ := p
    by_cases h : a = k
    · subst h; simp [mapGet]
    · rw [mapGet, if_neg h, ih]
      simp only [List.map_cons, List.mem_cons]
      constructor
      · intro hk hmem
        rcases hmem with h1 | h2
        · exact h h1.symm
        · exact hk h2
      · intro hk hmem
        exact hk (Or.inr hmem)

theorem contains_eq_decide_mem {α : Type} [DecidableEq α] (s : List α) (x : α) :
    s.contains x = decide (x ∈ s) := by
  by_cases h : x ∈ s <;> simp [List.elem_iff, h]

theorem setAdd_of_mem {α : Type} [DecidableEq α] {s : List α} {x : α} (h : x ∈ s) :
    setAdd s x = s := by
  simp [setAdd, contains_eq_decide_mem, h]

theorem setAdd_of_not_mem {α : Type} [DecidableEq α] {s : List α} {x : α} (h : x ∉ s) :
    setAdd s x = s ++ [x] := by
  simp [setAdd, contains_eq_decide_mem, h]

theorem mem_setAdd {α : Type} [DecidableEq α] (s : List α) (x y : α) :
    y ∈ setAdd s x ↔ (y ∈ s ∨ y = x) := by
  by_cases h : x ∈ s
  · rw [setAdd_of_mem h]
    constructor
    · exact Or.inl
    · rintro (hy | rfl)
      · exact hy
      · exact h
  · rw [setAdd_of_not_mem h]
    simp

theorem mem_setDelete {α : Type} [DecidableEq α] (s : List α) (x y : α) :
    y ∈ setDelete s x ↔ (y ∈ s ∧ y ≠ x) := by
  induction s with
  | nil => simp [setDelete]
  | cons a rest ih =>
    by_cases hax : a = x
    · subst hax
      rw [setDelete, if_pos rfl, ih]
      simp only [List.mem_cons]
      constructor
      · intro ⟨h1, h2⟩; exact ⟨Or.inr h1, h2⟩
      · rintro ⟨rfl | h1, h2⟩
        · exact absurd rfl h2
        · exact ⟨h1, h2⟩
    · rw [setDelete, if_neg hax]
      simp only [List.mem_cons, ih]
      constructor
      · rintro (rfl | ⟨h1, h2⟩)
        · exact ⟨Or.inl rfl, hax⟩
        · exact ⟨Or.inr h1, h2⟩
      · rintro ⟨rfl | h1, h2⟩
        · exact Or.inl rfl
        · exact Or.inr ⟨h1, h2⟩

theorem all_map_general {α β : Type} (l : List α) (f : α → β) (p : β → Bool) :
    (l.map f).all p = l.all (fun a => p (f a)) := by
  induction l with
  | nil => rfl
  | cons a rest ih => simp [ih]

theorem contains_setAdd {α : Type} [DecidableEq α] (s : List α) (x y : α) :
    (setAdd s x).contains y = (s.contains y || decide (y = x)) := by
  rw [contains_eq_decide_mem, contains_eq_decide_mem]
  simp [mem_setAdd]

theorem contains_setDelete {α : Type} [DecidableEq α] (s : List α) (x y : α) :
    (setDelete s x).contains y = (s.contains y && decide (y ≠ x)) := by
  rw [contains_eq_decide_mem, contains_eq_decide_mem]
  simp [mem_setDelete]

/-!
Characterization of the two private getters.
-/

namespace EntityManager

theorem getComponentsForEntity_fst (st : EMState) (e : EntityId) :
    (getComponentsForEntity st e).1 = ecD st e := by
  unfold getComponentsForEntity
  cases h : mapGet st.entityComponents e <;> simp [h, ecD]

theorem getComponentsForEntity_snd_componentEntities (st : EMState) (e : EntityId) :
    (getComponentsForEntity st e).2.componentEntities = st.componentEntities := by
  unfold getComponentsForEntity
  cases h : mapGet st.entityComponents e <;> simp [h]

theorem getComponentsForEntity_snd_entities (st : EMState) (e : EntityId) :
    (getComponentsForEntity st e).2.entities = st.entities := by
  unfold getComponentsForEntity
  cases h : mapGet st.entityComponents e <;> simp [h]

theorem getComponentsForEntity_snd_ecD (st : EMState) (e e' : EntityId) :
    ecD (getComponentsForEntity st e).2 e' = ecD st e' := by
  unfold getComponentsForEntity
  cases h : mapGet st.entityComponents e with
  | some m => simp [h]
  | none =>
    simp only [ecD, mapGet_append]
    cases h' : mapGet st.entityComponents e' with
    | some w => simp
    | none => by_cases he : e = e' <;> simp [mapGet, he]

theorem getEntitiesForComponent_fst (st : EMState) (k : Kind) :
    (getEntitiesForComponent st k).1 = byKindD st k := by
  unfold getEntitiesForComponent
  cases h : mapGet st.componentEntities k <;> simp [h, byKindD]

theorem getEntitiesForComponent_snd_entityComponents (st : EMState) (k : Kind) :
    (getEntitiesForComponent st k).2.entityComponents = st.entityComponents := by
  unfold getEntitiesForComponent
  cases h : mapGet st.componentEntities k <;> simp [h]

theorem getEntitiesForComponent_snd_entities (st : EMState) (k : Kind) :
    (getEntitiesForComponent st k).2.entities = st.entities := by
  unfold getEntitiesForComponent
  cases h : mapGet st.componentEntities k <;> simp [h]

theorem getEntitiesForComponent_snd_byKindD (st : EMState) (k k' : Kind) :
    byKindD (getEntitiesForComponent st k).2 k' = byKindD st k' := by
  unfold getEntitiesForComponent
  cases h : mapGet st.componentEntities k with
  | some s => simp [h]
  | none =>
    simp only [byKindD, mapGet_append]
    cases h' : mapGet st.componentEntities k' with
    | some w => simp
    | none => by_cases hk : k = k' <;> simp [mapGet, hk]

theorem getEntitiesForComponent_snd_mapGet (st : EMState) (k k' : Kind) :
    mapGet (getEntitiesForComponent st k).2.componentEntities k' =
      if k = k' ∧ mapGet st.componentEntities k = none then some []
      else mapGet st.componentEntities k' := by
  unfold getEntitiesForComponent
  cases h : mapGet st.componentEntities k with
  | some s =>
    simp only [h]
    rw [if_neg (by simp)]
  | none =>
    simp only [h, mapGet_append]
    cases h' : mapGet st.componentEntities k' with
    | some w => rw [if_neg (by rintro ⟨rfl, _⟩; rw [h] at h'; exact Option.noConfusion h')]; simp
    | none => by_cases hk : k = k' <;> simp [mapGet, hk]

end EntityManager

/-!
Pointwise characterization of the store operations.
-/

namespace EntityManager

theorem entityComponents_addComponent (st : EMState) (e : EntityId) (k : Kind) (c : Comp) :
    (addComponent st e k c).entityComponents =
      mapSet (getComponentsForEntity st e).2.entityComponents e (mapSet (ecD st e) k c) := by
  unfold addComponent
  simp [getEntitiesForComponent_snd_entityComponents, getComponentsForEntity_fst]

theorem entities_addComponent (st : EMState) (e : EntityId) (k : Kind) (c : Comp) :
    (addComponent st e k c).entities = st.entities := by
  unfold addComponent
  simp [getEntitiesForComponent_snd_entities, getComponentsForEntity_snd_entities]

theorem ecD_addComponent (st : EMState) (e : EntityId) (k : Kind) (c : Comp) (e' : EntityId) :
    ecD (addComponent st e k c) e' =
      if e = e' then mapSet (ecD st e) k c else ecD st e' := by
  have hpres := getComponentsForEntity_snd_ecD st e e'
  simp only [ecD] at hpres ⊢
  rw [entityComponents_addComponent, mapGet_mapSet]
  by_cases he : e = e'
  · simp [he, ecD]
  · simp [he, hpres]

theorem byKindD_addComponent (st : EMState) (e : EntityId) (k : Kind) (c : Comp) (k' : Kind) :
    byKindD (addComponent st e k c) k' =
      if k = k' then setAdd (byKindD st k) e else byKindD st k' := by
  unfold addComponent
  simp only [byKindD, mapGet_mapSet, getEntitiesForComponent_fst,
    getEntitiesForComponent_snd_mapGet, getComponentsForEntity_snd_componentEntities]
  by_cases hk : k = k'
  · subst hk; simp [byKindD]
  · simp [hk, byKindD]

theorem entityComponents_removeComponent (st : EMState) (e : EntityId) (k : Kind) :
    (removeComponent st e k).entityComponents =
      mapSet (getComponentsForEntity st e).2.entityComponents e (mapDelete (ecD st e) k) := by
  unfold removeComponent
  simp [getEntitiesForComponent_snd_entityComponents, getComponentsForEntity_fst]

theorem entities_removeComponent (st : EMState) (e : EntityId) (k : Kind) :
    (removeComponent st e k).entities = st.entities := by
  unfold removeComponent
  simp [getEntitiesForComponent_snd_entities, getComponentsForEntity_snd_entities]

theorem ecD_removeComponent (st : EMState) (e : EntityId) (k : Kind) (e' : EntityId) :
    ecD (removeComponent st e k) e' =
      if e = e' then mapDelete (ecD st e) k else ecD st e' := by
  have hpres := getComponentsForEntity_snd_ecD st e e'
  simp only [ecD] at hpres ⊢
  rw [entityComponents_removeComponent, mapGet_mapSet]
  by_cases he : e = e'
  · simp [he, ecD]
  · simp [he, hpres]

theorem byKindD_removeComponent (st : EMState) (e : EntityId) (k : Kind) (k' : Kind) :
    byKindD (removeComponent st e k) k' =
      if k = k' then setDelete (byKindD st k) e else byKindD st k' := by
  unfold removeComponent
  simp only [byKindD, mapGet_mapSet, getEntitiesForComponent_fst,
    getEntitiesForComponent_snd_mapGet, getComponentsForEntity_snd_componentEntities]
  by_cases hk : k = k'
  · subst hk; simp [byKindD]
  · simp [hk, byKindD]

theorem getComponent_fst (st : EMState) (e : EntityId) (k : Kind) :
    (getComponent st e k).1 = mapGet (ecD st e) k := by
  simp only [getComponent, getComponentsForEntity_fst]

theorem getComponent_snd (st : EMState) (e : EntityId) (k : Kind) :
    (getComponent st e k).2 = (getComponentsForEntity st e).2 := rfl

end EntityManager

/-!
Effect of the operations on the two index observations.
-/

namespace EntityManager

theorem hasKey_addComponent (st : EMState) (e : EntityId) (k : Kind) (c : Comp)
    (e' : EntityId) (k' : Kind) :
    hasKey (addComponent st e k c) e' k' =
      if e = e' ∧ k = k' then true else hasKey st e' k' := by
  unfold hasKey
  rw [ecD_addComponent]
  by_cases he : e = e'
  · subst he
    rw [if_pos rfl, mapGet_mapSet]
    by_cases hk : k = k' <;> simp [hk]
  · simp [he]

theorem inByKind_addComponent (st : EMState) (e : EntityId) (k : Kind) (c : Comp)
    (e' : EntityId) (k' : Kind) :
    inByKind (addComponent st e k c) e' k' =
      if e = e' ∧ k = k' then true else inByKind st e' k' := by
  unfold inByKind
  rw [byKindD_addComponent]
  by_cases hk : k = k'
  · subst hk
    rw [if_pos rfl, contains_setAdd]
    by_cases he : e = e'
    · subst he; simp
    · simp [he]
      exact fun h => absurd h.symm he
  · simp [hk]

theorem hasKey_removeComponent (st : EMState) (e : EntityId) (k : Kind)
    (e' : EntityId) (k' : Kind) :
    hasKey (removeComponent st e k) e' k' =
      if e = e' ∧ k = k' then false else hasKey st e' k' := by
  unfold hasKey
  rw [ecD_removeComponent]
  by_cases he : e = e'
  · subst he
    rw [if_pos rfl, mapGet_mapDelete]
    by_cases hk : k = k' <;> simp [hk]
  · simp [he]

theorem inByKind_removeComponent (st : EMState) (e : EntityId) (k : Kind)
    (e' : EntityId) (k' : Kind) :
    inByKind (removeComponent st e k) e' k' =
      if e = e' ∧ k = k' then false else inByKind st e' k' := by
  unfold inByKind
  rw [byKindD_removeComponent]
  by_cases hk : k = k'
  · subst hk
    rw [if_pos rfl, contains_setDelete]
    by_cases he : e = e'
    · subst he; simp
    · simp [he]
      exact fun _ h => he h.symm
  · simp [hk]

theorem entities_removeComponents (st : EMState) (e : EntityId) (ks : List Kind) :
    (removeComponents st e ks).entities = st.entities := by
  induction ks generalizing st with
  | nil => rfl
  | cons c rest ih =>
    show (removeComponents (removeComponent st e c) e rest).entities = st.entities
    rw [ih, entities_removeComponent]

theorem hasKey_removeComponents (st : EMState) (e : EntityId) (ks : List Kind)
    (e' : EntityId) (k' : Kind) :
    hasKey (removeComponents st e ks) e' k' =
      if e = e' ∧ k' ∈ ks then false else hasKey st e' k' := by
  induction ks generalizing st with
  | nil => simp [removeComponents]
  | cons c rest ih =>
    show hasKey (removeComponents (removeComponent st e c) e rest) e' k' = _
    rw [ih, hasKey_removeComponent]
    by_cases he : e = e'
    · subst he
      by_cases hr : k' ∈ rest
      · simp [hr]
      · by_cases hc : c = k'
        · subst hc; simp [hr]
        · simp [hr, hc, List.mem_cons]
          exact fun _ h => hc h.symm
    · simp [he]

theorem inByKind_removeComponents (st : EMState) (e : EntityId) (ks : List Kind)
    (e' : EntityId) (k' : Kind) :
    inByKind (removeComponents st e ks) e' k' =
      if e = e' ∧ k' ∈ ks then false else inByKind st e' k' := by
  induction ks generalizing st with
  | nil => simp [removeComponents]
  | cons c rest ih =>
    show inByKind (removeComponents (removeComponent st e c) e rest) e' k' = _
    rw [ih, inByKind_removeComponent]
    by_cases he : e = e'
    · subst he
      by_cases hr : k' ∈ rest
      · simp [hr]
      · by_cases hc : c = k'
        · subst hc; simp [hr]
        · simp [hr, hc, List.mem_cons]
          exact fun _ h => hc h.symm
    · simp [he]

end EntityManager

/-!
Preservation through the getters, and `deleteEntity` / query state lemmas.
-/

namespace EntityManager

theorem hasKey_getComponentsForEntity (st : EMState) (e e' : EntityId) (k : Kind) :
    hasKey (getComponentsForEntity st e).2 e' k = hasKey st e' k := by
  unfold hasKey
  rw [getComponentsForEntity_snd_ecD]

theorem inByKind_getComponentsForEntity (st : EMState) (e e' : EntityId) (k : Kind) :
    inByKind (getComponentsForEntity st e).2 e' k = inByKind st e' k := by
  unfold inByKind byKindD
  rw [getComponentsForEntity_snd_componentEntities]

theorem deleteEntity_of_not_live (st : EMState) (id : EntityId)
    (h : st.entities.contains id = false) :
    deleteEntity st id = (false, st) := by
  have h' : id ∉ st.entities := by simpa [contains_eq_decide_mem] using h
  unfold deleteEntity
  rw [if_neg (by simp [h'])]

theorem deleteEntity_fst_of_live (st : EMState) (id : EntityId)
    (h : st.entities.contains id = true) :
    (deleteEntity st id).1 = true := by
  unfold deleteEntity
  rw [if_pos h]

theorem deleteEntity_entities_of_live (st : EMState) (id : EntityId)
    (h : st.entities.contains id = true) :
    (deleteEntity st id).2.entities = setDelete st.entities id := by
  unfold deleteEntity
  rw [if_pos h]
  dsimp only
  rw [entities_removeComponents, getComponentsForEntity_snd_entities]

theorem deleteEntity_inByKind_of_held (st : EMState) (id : EntityId)
    (h : st.entities.contains id = true) (k : Kind) (hk : hasKey st id k = true) :
    inByKind (deleteEntity st id).2 id k = false := by
  have hmem : k ∈ ((getComponentsForEntity st id).1.map (·.1)) := by
    rw [getComponentsForEntity_fst]
    by_contra hnot
    have hnone : mapGet (ecD st id) k = none := (mapGet_eq_none_iff _ _).mpr hnot
    unfold hasKey at hk
    rw [hnone] at hk
    exact Bool.noConfusion hk
  unfold deleteEntity
  rw [if_pos h]
  dsimp only
  show inByKind (removeComponents (getComponentsForEntity st id).2 id
      ((getComponentsForEntity st id).1.map (·.1))) id k = false
  rw [inByKind_removeComponents]
  rw [if_pos ⟨rfl, hmem⟩]

end EntityManager

/-!
Preservation of the bidirectional index invariant by each operation.
-/

namespace EntityManager

theorem consistent_createEntity (st : EMState) (hC : Consistent st) (id : EntityId) :
    Consistent (createEntity st id) := hC

theorem consistent_addComponent (st : EMState) (hC : Consistent st)
    (e : EntityId) (k : Kind) (c : Comp) :
    Consistent (addComponent st e k c) := by
  intro e' k'
  rw [hasKey_addComponent, inByKind_addComponent]
  by_cases hek : e = e' ∧ k = k' <;> simp [hek, hC e' k']

theorem consistent_removeComponent (st : EMState) (hC : Consistent st)
    (e : EntityId) (k : Kind) :
    Consistent (removeComponent st e k) := by
  intro e' k'
  rw [hasKey_removeComponent, inByKind_removeComponent]
  by_cases hek : e = e' ∧ k = k' <;> simp [hek, hC e' k']

theorem consistent_removeComponents (st : EMState) (hC : Consistent st)
    (e : EntityId) (ks : List Kind) :
    Consistent (removeComponents st e ks) := by
  intro e' k'
  rw [hasKey_removeComponents, inByKind_removeComponents]
  by_cases hek : e = e' ∧ k' ∈ ks <;> simp [hek, hC e' k']

theorem consistent_getComponent (st : EMState) (hC : Consistent st)
    (e : EntityId) (k : Kind) :
    Consistent (getComponent st e k).2 := by
  intro e' k'
  rw [getComponent_snd, hasKey_getComponentsForEntity, inByKind_getComponentsForEntity]
  exact hC e' k'

theorem consistent_deleteEntity (st : EMState) (hC : Consistent st) (id : EntityId) :
    Consistent (deleteEntity st id).2 := by
  by_cases h : st.entities.contains id = true
  · have hC2 : Consistent (removeComponents (getComponentsForEntity st id).2 id
        ((getComponentsForEntity st id).1.map (·.1))) := by
      intro a b
      rw [hasKey_removeComponents, inByKind_removeComponents,
        hasKey_getComponentsForEntity, inByKind_getComponentsForEntity]
      by_cases hab : id = a ∧ b ∈ (getComponentsForEntity st id).1.map (·.1) <;>
        simp [hab, hC a b]
    have hdead : ∀ k', inByKind (removeComponents (getComponentsForEntity st id).2 id
        ((getComponentsForEntity st id).1.map (·.1))) id k' = false := by
      intro k'
      rw [inByKind_removeComponents]
      by_cases hmem : k' ∈ (getComponentsForEntity st id).1.map (·.1)
      · simp [hmem]
      · simp only [hmem, and_false, if_false]
        rw [inByKind_getComponentsForEntity, ← hC id k']
        have hnone : mapGet (ecD st id) k' = none := by
          apply (mapGet_eq_none_iff _ _).mpr
          rw [getComponentsForEntity_fst] at hmem
          exact hmem
        unfold hasKey
        rw [hnone]
        rfl
    intro e' k'
    unfold deleteEntity
    rw [if_pos h]
    dsimp only
    show (mapGet ((mapGet (mapDelete (removeComponents (getComponentsForEntity st id).2 id
        ((getComponentsForEntity st id).1.map (·.1))).entityComponents id) e').getD []) k').isSome
      = inByKind (removeComponents (getComponentsForEntity st id).2 id
        ((getComponentsForEntity st id).1.map (·.1))) e' k'
    rw [mapGet_mapDelete]
    by_cases hid : id = e'
    · subst hid
      rw [if_pos rfl, hdead k']
      rfl
    · rw [if_neg hid]
      have := hC2 e' k'
      unfold hasKey ecD at this
      exact this
  · rw [deleteEntity_of_not_live st id (Bool.not_eq_true _ ▸ Bool.of_not_eq_true h)]
    exact hC

end EntityManager

/-!
The query loop: collected sets and resulting store.
-/

namespace EntityManager

theorem queryFold_fst (ctors : List Kind) :
    ∀ (st : EMState) (acc : List (List EntityId)),
      (ctors.foldl queryStep (acc, st)).1 = acc ++ ctors.map (byKindD st) := by
  induction ctors with
  | nil => intro st acc; simp
  | cons c rest ih =>
    intro st acc
    rw [List.foldl_cons]
    show (rest.foldl queryStep
      (acc ++ [(getEntitiesForComponent st c).1], (getEntitiesForComponent st c).2)).1 = _
    rw [ih]
    have hfun : byKindD (getEntitiesForComponent st c).2 = byKindD st :=
      funext (fun k' => getEntitiesForComponent_snd_byKindD st c k')
    rw [hfun, getEntitiesForComponent_fst, List.map_cons, List.append_assoc]
    rfl

theorem queryFold_snd_entities (ctors : List Kind) :
    ∀ (st : EMState) (acc : List (List EntityId)),
      (ctors.foldl queryStep (acc, st)).2.entities = st.entities := by
  induction ctors with
  | nil => intro st acc; rfl
  | cons c rest ih =>
    intro st acc
    rw [List.foldl_cons]
    show (rest.foldl queryStep
      (acc ++ [(getEntitiesForComponent st c).1], (getEntitiesForComponent st c).2)).2.entities = _
    rw [ih, getEntitiesForComponent_snd_entities]

theorem queryFold_snd_entityComponents (ctors : List Kind) :
    ∀ (st : EMState) (acc : List (List EntityId)),
      (ctors.foldl queryStep (acc, st)).2.entityComponents = st.entityComponents := by
  induction ctors with
  | nil => intro st acc; rfl
  | cons c rest ih =>
    intro st acc
    rw [List.foldl_cons]
    show (rest.foldl queryStep
      (acc ++ [(getEntitiesForComponent st c).1],
       (getEntitiesForComponent st c).2)).2.entityComponents = _
    rw [ih, getEntitiesForComponent_snd_entityComponents]

theorem queryFold_snd_mapGet (ctors : List Kind) :
    ∀ (st : EMState) (acc : List (List EntityId)) (k : Kind),
      mapGet (ctors.foldl queryStep (acc, st)).2.componentEntities k =
        if k ∈ ctors ∧ mapGet st.componentEntities k = none then some []
        else mapGet st.componentEntities k := by
  induction ctors with
  | nil => intro st acc k; simp
  | cons c rest ih =>
    intro st acc k
    rw [List.foldl_cons]
    show mapGet (rest.foldl queryStep
      (acc ++ [(getEntitiesForComponent st c).1],
       (getEntitiesForComponent st c).2)).2.componentEntities k = _
    rw [ih, getEntitiesForComponent_snd_mapGet]
    by_cases hck : c = k
    · subst hck
      by_cases hnone : mapGet st.componentEntities c = none
      · simp [hnone]
      · simp [hnone]
    · by_cases hrest : k ∈ rest
      · by_cases hnone : mapGet st.componentEntities k = none
        · simp [hck, hrest, hnone]
        · simp [hck, hrest, hnone]
      · have hmemc : k ∉ (c :: rest) := by
          intro hmem
          rcases List.mem_cons.mp hmem with h1 | h2
          · exact hck h1.symm
          · exact hrest h2
        simp [hck, hrest, hmemc]

theorem getEntitiesWithComponents_snd_mapGet (st : EMState) (ctors : List Kind) (k : Kind) :
    mapGet (getEntitiesWithComponents st ctors).2.componentEntities k =
      if k ∈ ctors ∧ mapGet st.componentEntities k = none then some []
      else mapGet st.componentEntities k := by
  unfold getEntitiesWithComponents
  by_cases h : ctors.length = 0
  · have : ctors = [] := List.length_eq_zero.mp h
    subst this
    simp
  · rw [if_neg h]
    dsimp only
    rw [queryFold_snd_mapGet]

theorem getEntitiesWithComponents_snd_entities (st : EMState) (ctors : List Kind) :
    (getEntitiesWithComponents st ctors).2.entities = st.entities := by
  unfold getEntitiesWithComponents
  by_cases h : ctors.length = 0
  · rw [if_pos h]
  · rw [if_neg h]
    dsimp only
    rw [queryFold_snd_entities]

theorem getEntitiesWithComponents_snd_entityComponents (st : EMState) (ctors : List Kind) :
    (getEntitiesWithComponents st ctors).2.entityComponents = st.entityComponents := by
  unfold getEntitiesWithComponents
  by_cases h : ctors.length = 0
  · rw [if_pos h]
  · rw [if_neg h]
    dsimp only
    rw [queryFold_snd_entityComponents]

theorem getEntitiesWithComponents_snd_byKindD (st : EMState) (ctors : List Kind) (k : Kind) :
    byKindD (getEntitiesWithComponents st ctors).2 k = byKindD st k := by
  unfold byKindD
  rw [getEntitiesWithComponents_snd_mapGet]
  by_cases h : k ∈ ctors ∧ mapGet st.componentEntities k = none
  · rw [if_pos h, h.2]
    rfl
  · rw [if_neg h]

theorem consistent_getEntitiesWithComponents (st : EMState) (hC : Consistent st)
    (ctors : List Kind) :
    Consistent (getEntitiesWithComponents st ctors).2 := by
  intro e' k'
  have h1 : hasKey (getEntitiesWithComponents st ctors).2 e' k' = hasKey st e' k' := by
    unfold hasKey ecD
    rw [getEntitiesWithComponents_snd_entityComponents]
  have h2 : inByKind (getEntitiesWithComponents st ctors).2 e' k' = inByKind st e' k' := by
    unfold inByKind
    rw [getEntitiesWithComponents_snd_byKindD]
  rw [h1, h2]
  exact hC e' k'

theorem getEntitiesWithComponents_fst_of_ne_nil (st : EMState) (ctors : List Kind)
    (h : ctors ≠ []) :
    (getEntitiesWithComponents st ctors).1 =
      Except.ok ((byKindD st (ctors.headD 0)).filter
        (fun e => ctors.all (fun k => (byKindD st k).contains e))) := by
  unfold getEntitiesWithComponents
  rw [if_neg (by simpa using h)]
  dsimp only
  rw [queryFold_fst]
  cases ctors with
  | nil => exact absurd rfl h
  | cons c rest =>
    simp only [List.nil_append, List.map_cons, List.headD_cons, List.all_cons]
    congr 1
    apply List.filter_congr
    intro e _
    rw [all_map_general]

end EntityManager

/-!
The claims.
-/

open EntityManager

/-- C1: For every non-empty list of component kinds,
`queryEntities`/`withComponents` returns exactly the entity ids in the
intersection of `byKind[k]` over the requested kinds: the first kind's set
is the seed and a seed member is kept iff it is present in every requested
kind's set, in the seed set's iteration order. -/
theorem queryEntities_intersection_correct (st : EMState) (ctors : List Kind)
    (h : ctors ≠ []) :
    ∃ result : List EntityId,
      (getEntitiesWithComponents st ctors).1 = Except.ok result ∧
      result = (byKindD st (ctors.headD 0)).filter
        (fun e => ctors.all (fun k => (byKindD st k).contains e)) ∧
      (∀ e, e ∈ result ↔
        (e ∈ byKindD st (ctors.headD 0) ∧ ∀ k ∈ ctors, e ∈ byKindD st k)) := by
  refine ⟨_, getEntitiesWithComponents_fst_of_ne_nil st ctors h, rfl, ?_⟩
  intro e
  rw [List.mem_filter]
  constructor
  · rintro ⟨hseed, hall⟩
    refine ⟨hseed, fun k hk => ?_⟩
    have hc := List.all_eq_true.mp hall k hk
    rw [contains_eq_decide_mem] at hc
    exact of_decide_eq_true hc
  · rintro ⟨hseed, hall⟩
    refine ⟨hseed, List.all_eq_true.mpr fun k hk => ?_⟩
    rw [contains_eq_decide_mem]
    exact decide_eq_true (hall k hk)

/-- Witness for C1: on the spec's test store, `queryEntities([A, B])`
returns exactly `[e1]`. -/
theorem queryEntities_intersection_correct_witness :
    (getEntitiesWithComponents sampleStore [0, 1]).1 = Except.ok ["e1"] := by
  obtain ⟨r, hr, hfilter, _⟩ :=
    queryEntities_intersection_correct sampleStore [0, 1] (by decide)
  rw [hr, hfilter]
  rfl

/-- C2: bidirectional index consistency — `k ∈ byEntity[e]` iff
`e ∈ byKind[k]` — is preserved by every store operation. -/
theorem store_index_consistency (st : EMState) (hC : Consistent st) :
    (∀ id, Consistent (createEntity st id)) ∧
    (∀ e k c, Consistent (addComponent st e k c)) ∧
    (∀ e k, Consistent (removeComponent st e k)) ∧
    (∀ e ks, Consistent (removeComponents st e ks)) ∧
    (∀ id, Consistent (deleteEntity st id).2) ∧
    (∀ e k, Consistent (getComponent st e k).2) ∧
    (∀ ks, Consistent (getEntitiesWithComponents st ks).2) :=
  ⟨fun id => consistent_createEntity st hC id,
   fun e k c => consistent_addComponent st hC e k c,
   fun e k => consistent_removeComponent st hC e k,
   fun e ks => consistent_removeComponents st hC e ks,
   fun id => consistent_deleteEntity st hC id,
   fun e k => consistent_getComponent st hC e k,
   fun ks => consistent_getEntitiesWithComponents st hC ks⟩

/-- Witness for C2: instantiated on the empty store and an `addComponent`. -/
theorem store_index_consistency_witness :
    hasKey (addComponent emptyEM "a" 1 7) "a" 1 =
      inByKind (addComponent emptyEM "a" 1 7) "a" 1 :=
  (store_index_consistency emptyEM (fun _ _ => rfl)).2.1 "a" 1 7 "a" 1

/-- C3: `addComponent` on a non-live id succeeds silently (it is total and
raises nothing), records the component in both indices — afterwards the id
is a key of `byEntity` with the kind present and a member of `byKind[k]`,
and is returned by `queryEntities([k])` — while `getEntity` stays absent
and the live set is unchanged. -/
theorem addComponent_dead_entity_orphan (st : EMState) (id : EntityId)
    (h : st.entities.contains id = false) (k : Kind) (c : Comp) :
    hasKey (addComponent st id k c) id k = true ∧
    inByKind (addComponent st id k c) id k = true ∧
    (addComponent st id k c).entities = st.entities ∧
    getEntity (addComponent st id k c) id = none ∧
    ∃ result,
      (getEntitiesWithComponents (addComponent st id k c) [k]).1 = Except.ok result ∧
      id ∈ result := by
  have hin : inByKind (addComponent st id k c) id k = true := by
    rw [inByKind_addComponent]
    simp
  have hhk : hasKey (addComponent st id k c) id k = true := by
    rw [hasKey_addComponent]
    simp
  refine ⟨hhk, hin, entities_addComponent st id k c, ?_, ?_⟩
  · unfold getEntity
    rw [entities_addComponent]
    have h' : id ∉ st.entities := by simpa [contains_eq_decide_mem] using h
    rw [if_neg (by simp [h'])]
  · refine ⟨_, getEntitiesWithComponents_fst_of_ne_nil _ [k] (by simp), ?_⟩
    rw [List.mem_filter]
    have hmem : id ∈ byKindD (addComponent st id k c) k := by
      unfold inByKind at hin
      rw [contains_eq_decide_mem] at hin
      exact of_decide_eq_true hin
    constructor
    · simpa using hmem
    · unfold inByKind at hin
      simp [hin]
      exact hmem

/-- Witness for C3: adding to the never-created id `"z"` on the empty
store leaves `"z"` dead yet indexed under kind `0`. -/
theorem addComponent_dead_entity_orphan_witness :
    inByKind (addComponent emptyEM "z" 0 5) "z" 0 = true ∧
    getEntity (addComponent emptyEM "z" 0 5) "z" = none :=
  ⟨(addComponent_dead_entity_orphan emptyEM "z" rfl 0 5).2.1,
   (addComponent_dead_entity_orphan emptyEM "z" rfl 0 5).2.2.2.1⟩

/-- C4: adding a component of a kind already present replaces the prior
instance: after `addComponent(e, K, a)` then `addComponent(e, K, b)`,
`getComponent(e, K)` yields `b` only, and the second add leaves the
`byKind` index unchanged (idempotent w.r.t. index membership). -/
theorem addComponent_replaces_prior_instance (st : EMState) (e : EntityId)
    (k : Kind) (a b : Comp) :
    (getComponent (addComponent (addComponent st e k a) e k b) e k).1 = some b ∧
    (∀ k', byKindD (addComponent (addComponent st e k a) e k b) k' =
      byKindD (addComponent st e k a) k') := by
  constructor
  · rw [getComponent_fst, ecD_addComponent]
    rw [if_pos rfl, mapGet_mapSet, if_pos rfl]
  · intro k'
    rw [byKindD_addComponent]
    by_cases hk : k = k'
    · subst hk
      rw [if_pos rfl]
      have hmem : e ∈ byKindD (addComponent st e k a) k := by
        have h1 : inByKind (addComponent st e k a) e k = true := by
          rw [inByKind_addComponent]; simp
        unfold inByKind at h1
        rw [contains_eq_decide_mem] at h1
        exact of_decide_eq_true h1
      rw [setAdd_of_mem hmem]
    · rw [if_neg hk]

/-- C5: `deleteEntity` on a live id returns `true`, afterwards `getEntity`
is absent and the id is in no `byKind` set for any kind it previously
held; on a non-live id it returns `false` and leaves the store unchanged. -/
theorem deleteEntity_complete (st : EMState) (id : EntityId) :
    (st.entities.contains id = true →
      (deleteEntity st id).1 = true ∧
      getEntity (deleteEntity st id).2 id = none ∧
      (∀ k, hasKey st id k = true → inByKind (deleteEntity st id).2 id k = false)) ∧
    (st.entities.contains id = false → deleteEntity st id = (false, st)) := by
  constructor
  · intro h
    refine ⟨deleteEntity_fst_of_live st id h, ?_, fun k hk =>
      deleteEntity_inByKind_of_held st id h k hk⟩
    unfold getEntity
    rw [deleteEntity_entities_of_live st id h]
    rw [if_neg (by rw [contains_setDelete]; simp)]
  · intro h
    exact deleteEntity_of_not_live st id h

/-- Witness for C5: deleting live `"e1"` from the sample store succeeds
and clears its index entries; deleting the unknown `"nope"` returns
`false` and changes nothing. -/
theorem deleteEntity_complete_witness :
    (deleteEntity sampleStore "e1").1 = true ∧
    getEntity (deleteEntity sampleStore "e1").2 "e1" = none ∧
    inByKind (deleteEntity sampleStore "e1").2 "e1" 0 = false ∧
    deleteEntity sampleStore "nope" = (false, sampleStore) := by
  have hlive := (deleteEntity_complete sampleStore "e1").1 (by decide)
  exact ⟨hlive.1, hlive.2.1, hlive.2.2 0 (by decide),
    (deleteEntity_complete sampleStore "nope").2 (by decide)⟩

/-- C6: calling the query with zero kinds fails with the raised
`InvalidQuery` condition (the thrown error), and with any non-empty kinds
list it does not raise. -/
theorem queryEntities_arity_guard (st : EMState) (ctors : List Kind) :
    (ctors = [] → (getEntitiesWithComponents st ctors).1 =
      Except.error "No Component constructors passed to World#withComponent") ∧
    (ctors ≠ [] → ∃ result,
      (getEntitiesWithComponents st ctors).1 = Except.ok result) := by
  constructor
  · rintro rfl
    rfl
  · intro h
    exact ⟨_, getEntitiesWithComponents_fst_of_ne_nil st ctors h⟩

/-- Witness for C6: the empty query on the empty store raises, the
one-kind query does not. -/
theorem queryEntities_arity_guard_witness :
    (getEntitiesWithComponents emptyEM []).1 =
      Except.error "No Component constructors passed to World#withComponent" ∧
    ∃ result, (getEntitiesWithComponents emptyEM [0]).1 = Except.ok result :=
  ⟨(queryEntities_arity_guard emptyEM []).1 rfl,
   (queryEntities_arity_guard emptyEM [0]).2 (by decide)⟩

/-- C7: the internal tick handler checks the running flag at tick entry
and does nothing when the world is not running; since `stop` always
leaves the world not running, a tick callback that fires after `stop`
took effect never executes the tick body (no delta update, no system
ticks, no rescheduling). -/
theorem tick_post_stop_guard (w : WorldS) (s sched : SchedulerState) (timeNow : Int) :
    (World.stop w s).1.running = false ∧
    World.tick (World.stop w s).1 sched timeNow = ((World.stop w s).1, sched, []) ∧
    (∀ w', w'.running = false → World.tick w' sched timeNow = (w', sched, [])) := by
  have hguard : ∀ w' : WorldS, w'.running = false →
      World.tick w' sched timeNow = (w', sched, []) := by
    intro w' h
    unfold World.tick
    rw [if_neg (by simp [h])]
  have hstop : (World.stop w s).1.running = false := by
    unfold World.stop
    cases hr : w.running
    · simp [hr]
    · cases ht : World.truthyHandle w.nextTickHandle <;> simp [hr, ht]
  exact ⟨hstop, hguard _ hstop, hguard⟩

/-- Witness for C7: ticking the stopped sample world, or a fresh idle
world, changes nothing and runs no system. -/
theorem tick_post_stop_guard_witness :
    World.tick (World.stop sampleRunningWorld freshScheduler).1 freshScheduler 99 =
      ((World.stop sampleRunningWorld freshScheduler).1, freshScheduler, []) ∧
    World.tick newWorld freshScheduler 3 = (newWorld, freshScheduler, []) :=
  ⟨(tick_post_stop_guard sampleRunningWorld freshScheduler freshScheduler 99).2.1,
   (tick_post_stop_guard newWorld freshScheduler freshScheduler 3).2.2 newWorld rfl⟩

/-- C8: on a frame where the world is running, the tick handler invokes
`tick(world, delta)` on every registered system exactly once, in
registration order — the emitted call sequence is the registry list
itself paired with the frame delta. -/
theorem tick_runs_systems_in_order (w : WorldS) (s : SchedulerState) (timeNow : Int)
    (h : w.running = true) :
    (World.tick w s timeNow).2.2 =
      w.systems.map (fun system => (system, timeNow - w.lastTick)) ∧
    ((World.tick w s timeNow).2.2).map Prod.fst = w.systems := by
  unfold World.tick
  rw [if_pos h]
  dsimp only
  refine ⟨rfl, ?_⟩
  rw [List.map_map]
  have hid : (Prod.fst ∘ fun system : Nat => (system, timeNow - w.lastTick)) = id := rfl
  rw [hid, List.map_id]

/-- Witness for C8: the sample running world with systems `[1, 2, 3]`
and delta `15` ticks them in exactly that order. -/
theorem tick_runs_systems_in_order_witness :
    (World.tick sampleRunningWorld freshScheduler 25).2.2 =
      [(1, 15), (2, 15), (3, 15)] := by
  rw [(tick_runs_systems_in_order sampleRunningWorld freshScheduler 25 rfl).1]
  rfl

/-- C9: `start` on a running world is a no-op leaving world and scheduler
untouched, so two consecutive starts schedule exactly one pending tick;
`stop` on an idle world performs no cancellation and changes no state. -/
theorem start_stop_idempotent (w : WorldS) (s : SchedulerState) (t1 t2 : Int) :
    (w.running = true → World.start w s t1 = (w, s)) ∧
    (w.running = false →
      World.start (World.start w s t1).1 (World.start w s t1).2 t2 =
        World.start w s t1 ∧
      (World.start w s t1).2.pending.length = s.pending.length + 1) ∧
    (w.running = false → World.stop w s = (w, s)) := by
  refine ⟨?_, ?_, ?_⟩
  · intro h
    unfold World.start
    rw [if_pos h]
  · intro h
    have h1 : World.start w s t1 =
        ({ w with running := true, lastTick := t1, hasScheduler := true,
                  nextTickHandle := some s.nextHandle },
         ⟨s.nextHandle + 1, s.pending ++ [s.nextHandle]⟩) := by
      unfold World.start scheduleTick
      rw [if_neg (by simp [h])]
    rw [h1]
    constructor
    · simp [World.start]
    · simp
  · intro h
    unfold World.stop
    rw [if_neg (by simp [h])]

/-- Witness for C9: starting a fresh world twice equals starting it once
and leaves one pending tick; stopping it while idle is the identity. -/
theorem start_stop_idempotent_witness :
    World.start (World.start newWorld freshScheduler 5).1
        (World.start newWorld freshScheduler 5).2 7 =
      World.start newWorld freshScheduler 5 ∧
    (World.start newWorld freshScheduler 5).2.pending.length = 1 ∧
    World.stop newWorld freshScheduler = (newWorld, freshScheduler) :=
  ⟨((start_stop_idempotent newWorld freshScheduler 5 7).2.1 rfl).1,
   ((start_stop_idempotent newWorld freshScheduler 5 7).2.1 rfl).2,
   (start_stop_idempotent newWorld freshScheduler 5 7).2.2 rfl⟩

/-- C10: the reads are not state-preserving — `getComponent` on an id
with no `byEntity` entry returns absent but inserts an empty component
map for it, and the query inserts an empty entity set for every requested
kind that had no `byKind` entry — while the live set and all existing
entries are unchanged. -/
theorem store_reads_mutate_indices (st : EMState) (id : EntityId) (k : Kind)
    (ks : List Kind) :
    (mapGet st.entityComponents id = none →
      (getComponent st id k).1 = none ∧
      (getComponent st id k).2 =
        { st with entityComponents := st.entityComponents ++ [(id, [])] }) ∧
    (mapGet st.componentEntities k = none → k ∈ ks →
      mapGet (getEntitiesWithComponents st ks).2.componentEntities k = some [] ∧
      (getEntitiesWithComponents st ks).2.entities = st.entities ∧
      (getEntitiesWithComponents st ks).2.entityComponents = st.entityComponents ∧
      (∀ k' v, mapGet st.componentEntities k' = some v →
        mapGet (getEntitiesWithComponents st ks).2.componentEntities k' = some v)) ∧
    (getComponent st id k).2.entities = st.entities ∧
    (getComponent st id k).2.componentEntities = st.componentEntities := by
  refine ⟨?_, ?_, ?_, ?_⟩
  · intro hnone
    have hg : getComponentsForEntity st id =
        ([], { st with entityComponents := st.entityComponents ++ [(id, [])] }) := by
      unfold getComponentsForEntity
      rw [hnone]
    unfold getComponent
    dsimp only
    rw [hg]
    exact ⟨rfl, rfl⟩
  · intro hnone hmem
    refine ⟨?_, getEntitiesWithComponents_snd_entities st ks,
      getEntitiesWithComponents_snd_entityComponents st ks, ?_⟩
    · rw [getEntitiesWithComponents_snd_mapGet]
      rw [if_pos ⟨hmem, hnone⟩]
    · intro k' v hv
      rw [getEntitiesWithComponents_snd_mapGet]
      rw [if_neg (by rintro ⟨_, hn⟩; rw [hv] at hn; exact Option.noConfusion hn)]
      exact hv
  · rw [getComponent_snd, getComponentsForEntity_snd_entities]
  · rw [getComponent_snd, getComponentsForEntity_snd_componentEntities]

/-- Witness for C10: reading the unknown id `"z"` inserts its empty map;
querying the unknown kind `3` inserts its empty set. -/
theorem store_reads_mutate_indices_witness :
    (getComponent emptyEM "z" 0).2 =
      { emptyEM with entityComponents := [("z", [])] } ∧
    mapGet (getEntitiesWithComponents emptyEM [3]).2.componentEntities 3 = some [] :=
  ⟨((store_reads_mutate_indices emptyEM "z" 0 [3]).1 rfl).2,
   ((store_reads_mutate_indices emptyEM "z" 3 [3]).2.1 rfl (by decide)).1⟩
